import Mathlib

/-!
Shallow embedding of the contract validation library (src/contract.py).

Python values that the contracts inspect are modelled by the inductive
type Value below; a contract's check method, which in Python either
returns None or raises ContractValidationError(message), is modelled as
a function into Except String Unit, where Except.error carries the
exception's message.
-/

namespace ContractPlus

/-- The universe of Python values the library validates: None, int,
float (modelled by a rational payload; no claim depends on IEEE
rounding), str, list and dict (an association list of string keys,
mirroring the enumeration order of the Python dict). -/
inductive Value where
  | null
  | int (n : Int)
  | float (q : Rat)
  | str (s : String)
  | list (items : List Value)
  | dict (items : List (String × Value))

/-- The contract tree: one constructor per contract class of the source.
Class-versus-instance coercion (Contract._contract) is the identity
here, since the embedding has no separate notion of a contract class.
CallC stores its predicate as a function returning the error message or
none, mirroring a Python callable that returns a message or None. -/
inductive Contract where
  | anyC
  | nullC
  | intC (min max : Option Int)
  | floatC (min max : Option Rat)
  | stringC (allow_blank : Bool)
  | listC (contract : Contract) (min_length : Nat) (max_length : Option Nat)
  | dictC (contracts : List (String × Contract))
      (optionals : List String) (extras : List String) (allow_any : Bool)
  | orC (contracts : List Contract)
  | enumC (variants : List Value)
  | callC (fn : Value → Option String)

mutual

/-- Structural equality of values, used by EnumC's membership test
(the Python "in" operator comparing with ==). -/
def valueEq : Value → Value → Bool
  | .null, .null => true
  | .int a, .int b => a == b
  | .float a, .float b => a == b
  | .str a, .str b => a == b
  | .list xs, .list ys => valueEqList xs ys
  | .dict xs, .dict ys => valueEqPairs xs ys
  | _, _ => false
termination_by a b => sizeOf a

def valueEqList : List Value → List Value → Bool
  | [], [] => true
  | x :: xs, y :: ys => valueEq x y && valueEqList xs ys
  | _, _ => false
termination_by a b => sizeOf a

def valueEqPairs : List (String × Value) → List (String × Value) → Bool
  | [], [] => true
  | (k, x) :: xs, (l, y) :: ys => k == l && valueEq x y && valueEqPairs xs ys
  | _, _ => false
termination_by a b => sizeOf a

end

/-- IntC.check, lines 224-230: value must be an int, then the optional
min bound, then the optional max bound, each failing with its message. -/
def intCheck (mn mx : Option Int) (v : Value) : Except String Unit :=
  match v with
  | .int n =>
    match mn with
    | some lo =>
      if n < lo then .error ("value is less than " ++ toString lo)
      else
        match mx with
        | some hi =>
          if hi < n then .error ("value is greater than " ++ toString hi)
          else .ok ()
        | none => .ok ()
    | none =>
      match mx with
      | some hi =>
        if hi < n then .error ("value is greater than " ++ toString hi)
        else .ok ()
      | none => .ok ()
  | _ => .error "value is not int"

/-- FloatC.check, lines 279-285: same shape as IntC.check but on the
float payload. -/
def floatCheck (mn mx : Option Rat) (v : Value) : Except String Unit :=
  match v with
  | .float q =>
    match mn with
    | some lo =>
      if q < lo then .error ("value is less than " ++ toString lo)
      else
        match mx with
        | some hi =>
          if hi < q then .error ("value is greater than " ++ toString hi)
          else .ok ()
        | none => .ok ()
    | none =>
      match mx with
      | some hi =>
        if hi < q then .error ("value is greater than " ++ toString hi)
        else .ok ()
      | none => .ok ()
  | _ => .error "value is not float"

/-- StringC.check, lines 322-326. -/
def stringCheck (allow_blank : Bool) (v : Value) : Except String Unit :=
  match v with
  | .str s =>
    if ¬ allow_blank ∧ s.length = 0 then .error "blank value is not allowed"
    else .ok ()
  | _ => .error "value is not string"

/-- DictC.check_presence, lines 469-472: iterate the declared keys; a
declared key that is neither optional nor present in the value fails
with "key is required". -/
def checkPresence (cos : List (String × Contract)) (opt : List String)
    (items : List (String × Value)) : Except String Unit :=
  match cos with
  | [] => .ok ()
  | (k, _) :: rest =>
    if k ∉ opt ∧ (items.lookup k).isNone then .error (k ++ " is required")
    else checkPresence rest opt items

mutual

/-- Contract.check dispatched over the contract kinds, one arm per
class's check method in src/contract.py. -/
def check : Contract → Value → Except String Unit
  | .anyC, _ => .ok ()
  | .nullC, v =>
    match v with
    | .null => .ok ()
    | _ => .error "value should be None"
  | .intC mn mx, v => intCheck mn mx v
  | .floatC mn mx, v => floatCheck mn mx v
  | .stringC ab, v => stringCheck ab v
  | .enumC vs, v =>
    if vs.any (valueEq v) then .ok ()
    else .error "value doesn't match any variant"
  | .callC f, v =>
    match f v with
    | some m => .error m
    | none => .ok ()
  | .orC cs, v => checkOr cs v
  | .listC c mn mx, v =>
    match v with
    | .list xs =>
      if xs.length < mn then
        .error ("list length is less than " ++ toString mn)
      else
        match mx with
        | some hi =>
          if hi < xs.length then
            .error ("list length is greater than " ++ toString hi)
          else checkList c xs
        | none => checkList c xs
    | _ => .error "value is not list"
  | .dictC cos opt ext anyb, v =>
    match v with
    | .dict items =>
      match checkPresence cos opt items with
      | .error m => .error m
      | .ok _ => checkItems cos ext anyb items
    | _ => .error "value is not dict"
termination_by c v => (sizeOf c, 0)

/-- OrC.check, lines 129-137: try each sub-contract in order, return on
the first success, and fail with the generic message when all fail. -/
def checkOr : List Contract → Value → Except String Unit
  | [], _ => .error "no one contract matches"
  | c :: rest, v =>
    match check c v with
    | .ok _ => .ok ()
    | .error _ => checkOr rest v
termination_by cs v => (sizeOf cs, 0)

/-- The element loop of ListC.check, lines 375-376: check every element
against the item-contract; the first exception propagates. -/
def checkList (c : Contract) : List Value → Except String Unit
  | [] => .ok ()
  | x :: xs =>
    match check c x with
    | .error m => .error m
    | .ok _ => checkList c xs
termination_by xs => (sizeOf c + 1, sizeOf xs)

/-- The per-item loop of DictC.check, line 467: run check_item on every
item of the value in enumeration order; the first exception propagates. -/
def checkItems (cos : List (String × Contract)) (ext : List String)
    (anyb : Bool) : List (String × Value) → Except String Unit
  | [] => .ok ()
  | (k, v) :: rest =>
    match itemCheck cos ext anyb k v with
    | .error m => .error m
    | .ok _ => checkItems cos ext anyb rest
termination_by items => (sizeOf cos + 1, sizeOf items)

/-- DictC.check_item, lines 474-479: a declared key's value is checked
against the declared contract (the membership test and the indexing of
the Python dict are fused into one scan of the association list); an
undeclared key fails unless allow_any holds or the key is listed in
extras, in which case it is accepted without further validation. -/
def itemCheck : List (String × Contract) → List String → Bool → String →
    Value → Except String Unit
  | [], ext, anyb, k, _ =>
    if ¬ anyb ∧ k ∉ ext then .error (k ++ " is not allowed key") else .ok ()
  | (k', c) :: rest, ext, anyb, k, v =>
    if k' = k then check c v else itemCheck rest ext anyb k v
termination_by cos ext anyb k v => (sizeOf cos, 0)

end

/-- The or-composition operator on contracts. A plain contract's
Contract.or_op (lines 78-79) builds OrC(self, other); an OrC's own
or_op (lines 143-145) delegates to its lshift (lines 139-141), which
appends the coerced contract to self.contracts and returns self.
ContractMeta's class-level operator (lines 38-39) first instantiates
the class and then behaves like the instance-level case, so it needs no
separate embedding. -/
def orOp : Contract → Contract → Contract
  | .orC cs, other => .orC (cs ++ [other])
  | c, other => .orC [c, other]

/-- DictC.allow_optionals, lines 455-461: fold over the given names; the
wildcard replaces optionals by a snapshot of the currently declared
keys, an ordinary name is appended; the mutated contract is returned. -/
def allow_optionals (c : Contract) (names : List String) : Contract :=
  match c with
  | .dictC cos opt ext anyb =>
    .dictC cos
      (names.foldl
        (fun acc n => if n = "*" then cos.map Prod.fst else acc ++ [n]) opt)
      ext anyb
  | c => c

/-- DictC.allow_extra, lines 447-453: fold over the given names; the
wildcard sets allow_any, an ordinary name is appended to extras; the
mutated contract is returned. -/
def allow_extra (c : Contract) (names : List String) : Contract :=
  match c with
  | .dictC cos opt ext anyb =>
    let r := names.foldl
      (fun (acc : List String × Bool) n =>
        if n = "*" then (acc.1, true) else (acc.1 ++ [n], acc.2))
      (ext, anyb)
    .dictC cos opt r.1 r.2
  | c => c

/-- CallC's constructor checks, lines 561-568, on the shape of the
supplied object: whether it is callable, how many declared arguments it
has and how many of those have defaults. A RuntimeError (configuration
error, distinct from a validation error) is modelled as Except.error. -/
def callCInit (isCallable : Bool) (nargs ndefaults : Nat) : Except String Unit :=
  if ¬ isCallable then .error "CallC argument should be callable"
  else if 1 < (nargs : Int) - (ndefaults : Int) then
    .error "CallC argument should be one argument function"
  else .ok ()

/-- The pre-check loop of guard's decor, lines 623-625: walk the
name-value pairs of the call; a pair whose name has a contract is
checked, the first validation error propagates, other pairs are
skipped. -/
def runChecks (contracts : List (String × Contract)) :
    List (String × Value) → Except String Unit
  | [] => .ok ()
  | (name, v) :: rest =>
    match contracts.lookup name with
    | some c =>
      match check c v with
      | .ok _ => runChecks contracts rest
      | .error m => .error m
    | none => runChecks contracts rest

/-- Outcome of calling a guarded function: either the wrapped function's
result or a GuardValidationError with its message. -/
inductive GuardResult (α : Type) where
  | ok (a : α)
  | err (msg : String)
  deriving DecidableEq

/-- guard's decor, lines 621-628: positional arguments are zipped with
the declared parameter names and keyword arguments appended; the pairs
are pre-checked, a ContractValidationError is re-raised as
GuardValidationError with the same message, and only when the pre-check
passes is the wrapped function invoked on the original arguments. -/
def guard {α : Type} (contracts : List (String × Contract))
    (argNames : List String) (fn : List Value → List (String × Value) → α)
    (args : List Value) (kwargs : List (String × Value)) : GuardResult α :=
  match runChecks contracts (argNames.zip args ++ kwargs) with
  | .ok _ => .ok (fn args kwargs)
  | .error m => .err m

mutual

/-- State-passing form of check: the translation of each check method
returns, along with its outcome, the contract's state after the call,
threading the state of every nested contract through the sub-calls
exactly where the source performs them. None of the source's check
methods assigns to self, so each arm reassembles the contract from the
(possibly updated) states of its parts. The fuel argument only bounds
the recursion depth; none is the out-of-fuel outcome. -/
def checkSt : Nat → Contract → Value → Option (Except String Unit × Contract)
  | 0, _, _ => none
  | fuel + 1, c, v =>
    match c with
    | .anyC => some (.ok (), .anyC)
    | .nullC =>
      match v with
      | .null => some (.ok (), .nullC)
      | _ => some (.error "value should be None", .nullC)
    | .intC mn mx => some (intCheck mn mx v, .intC mn mx)
    | .floatC mn mx => some (floatCheck mn mx v, .floatC mn mx)
    | .stringC ab => some (stringCheck ab v, .stringC ab)
    | .enumC vs =>
      some ((if vs.any (valueEq v) then .ok ()
             else .error "value doesn't match any variant"), .enumC vs)
    | .callC f =>
      some ((match f v with | some m => .error m | none => .ok ()), .callC f)
    | .orC cs => (checkStOr fuel cs v).map fun r => (r.1, .orC r.2)
    | .listC ic mn mx =>
      match v with
      | .list xs =>
        if xs.length < mn then
          some (.error ("list length is less than " ++ toString mn),
                .listC ic mn mx)
        else
          match mx with
          | some hi =>
            if hi < xs.length then
              some (.error ("list length is greater than " ++ toString hi),
                    .listC ic mn mx)
            else (checkStList fuel ic xs).map fun r => (r.1, .listC r.2 mn mx)
          | none => (checkStList fuel ic xs).map fun r => (r.1, .listC r.2 mn mx)
      | _ => some (.error "value is not list", .listC ic mn mx)
    | .dictC cos opt ext anyb =>
      match v with
      | .dict items =>
        match checkPresence cos opt items with
        | .error m => some (.error m, .dictC cos opt ext anyb)
        | .ok _ =>
          (checkStItems fuel cos ext anyb items).map
            fun r => (r.1, .dictC r.2 opt ext anyb)
      | _ => some (.error "value is not dict", .dictC cos opt ext anyb)

/-- State-passing form of the OrC.check loop: the state of each tried
sub-contract replaces it in the list, untried ones are kept as they
were. -/
def checkStOr : Nat → List Contract → Value →
    Option (Except String Unit × List Contract)
  | 0, _, _ => none
  | _ + 1, [], _ => some (.error "no one contract matches", [])
  | fuel + 1, c :: rest, v =>
    match checkSt fuel c v with
    | none => none
    | some r =>
      match r.1 with
      | .ok _ => some (.ok (), r.2 :: rest)
      | .error _ => (checkStOr fuel rest v).map fun r2 => (r2.1, r.2 :: r2.2)

/-- State-passing form of the ListC.check element loop: the item
contract's state after one element is the state used for the next. -/
def checkStList : Nat → Contract → List Value →
    Option (Except String Unit × Contract)
  | 0, _, _ => none
  | _ + 1, c, [] => some (.ok (), c)
  | fuel + 1, c, x :: xs =>
    match checkSt fuel c x with
    | none => none
    | some r =>
      match r.1 with
      | .error m => some (.error m, r.2)
      | .ok _ => checkStList fuel r.2 xs

/-- State-passing form of the DictC.check per-item loop. -/
def checkStItems : Nat → List (String × Contract) → List String → Bool →
    List (String × Value) → Option (Except String Unit × List (String × Contract))
  | 0, _, _, _, _ => none
  | _ + 1, cos, _, _, [] => some (.ok (), cos)
  | fuel + 1, cos, ext, anyb, (k, v) :: rest =>
    match itemCheckSt fuel cos ext anyb k v with
    | none => none
    | some r =>
      match r.1 with
      | .error m => some (.error m, r.2)
      | .ok _ => checkStItems fuel r.2 ext anyb rest

/-- State-passing form of DictC.check_item: the declared contract that
checks the key's value is replaced by its state after the call. -/
def itemCheckSt : Nat → List (String × Contract) → List String → Bool →
    String → Value → Option (Except String Unit × List (String × Contract))
  | 0, _, _, _, _, _ => none
  | _ + 1, [], ext, anyb, k, _ =>
    some ((if ¬ anyb ∧ k ∉ ext then .error (k ++ " is not allowed key")
           else .ok ()), [])
  | fuel + 1, (k', c) :: rest, ext, anyb, k, v =>
    if k' = k then (checkSt fuel c v).map fun r => (r.1, (k', r.2) :: rest)
    else (itemCheckSt fuel rest ext anyb k v).map fun r => (r.1, (k', c) :: r.2)

end

/-- What it means for one item of a validated mapping to pass the
per-item pass of DictC.check: a declared key's value passes its declared
contract, an undeclared key is permitted by allow_any or by extras. Used
to state the Dict semantics. -/
def itemPasses (cos : List (String × Contract)) (ext : List String)
    (anyb : Bool) (p : String × Value) : Prop :=
  match cos.lookup p.1 with
  | some c => check c p.2 = .ok ()
  | none => anyb = true ∨ p.1 ∈ ext

end ContractPlus

namespace ContractPlus

/-! Unfolding lemmas for check, one per contract kind, recovering the
per-arm equations that the equation compiler does not produce for the
mutual well-founded definition. -/

@[simp] theorem check_anyC (v : Value) : check .anyC v = .ok () := by
  rw [check.eq_def]

@[simp] theorem check_nullC (v : Value) :
    check .nullC v =
      (match v with
       | .null => .ok ()
       | _ => .error "value should be None") := by
  rw [check.eq_def]

@[simp] theorem check_intC (mn mx : Option Int) (v : Value) :
    check (.intC mn mx) v = intCheck mn mx v := by
  rw [check.eq_def]

@[simp] theorem check_floatC (mn mx : Option Rat) (v : Value) :
    check (.floatC mn mx) v = floatCheck mn mx v := by
  rw [check.eq_def]

@[simp] theorem check_stringC (ab : Bool) (v : Value) :
    check (.stringC ab) v = stringCheck ab v := by
  rw [check.eq_def]

@[simp] theorem check_enumC (vs : List Value) (v : Value) :
    check (.enumC vs) v =
      (if vs.any (valueEq v) then .ok ()
       else .error "value doesn't match any variant") := by
  rw [check.eq_def]

@[simp] theorem check_callC (f : Value → Option String) (v : Value) :
    check (.callC f) v =
      (match f v with
       | some m => .error m
       | none => .ok ()) := by
  rw [check.eq_def]

@[simp] theorem check_orC (cs : List Contract) (v : Value) :
    check (.orC cs) v = checkOr cs v := by
  rw [check.eq_def]

@[simp] theorem check_listC (c : Contract) (mn : Nat) (mx : Option Nat)
    (v : Value) :
    check (.listC c mn mx) v =
      (match v with
       | .list xs =>
         if xs.length < mn then
           .error ("list length is less than " ++ toString mn)
         else
           match mx with
           | some hi =>
             if hi < xs.length then
               .error ("list length is greater than " ++ toString hi)
             else checkList c xs
           | none => checkList c xs
       | _ => .error "value is not list") := by
  rw [check.eq_def]

@[simp] theorem check_dictC (cos : List (String × Contract))
    (opt ext : List String) (anyb : Bool) (v : Value) :
    check (.dictC cos opt ext anyb) v =
      (match v with
       | .dict items =>
         match checkPresence cos opt items with
         | .error m => .error m
         | .ok _ => checkItems cos ext anyb items
       | _ => .error "value is not dict") := by
  rw [check.eq_def]

end ContractPlus

namespace ContractPlus

/-! Claim C4: the Int contract's acceptance condition. -/

/-- C4: for every a, b and value v, IntC(min_=a, max_=b).check(v)
succeeds if and only if v is an integral value and a ≤ v ≤ b, each bound
independently optional and inclusive. -/
theorem intC_check_iff (a b : Option Int) (v : Value) :
    check (.intC a b) v = .ok () ↔
      ∃ n, v = .int n ∧ (∀ lo, a = some lo → lo ≤ n) ∧
        (∀ hi, b = some hi → n ≤ hi) := by
  cases v <;> cases a <;> cases b <;> simp [intCheck] <;>
    split_ifs <;> simp_all

/-! Claim C7: the CallC constructor's arity check. -/

/-- Counterexample to C7 as stated: a callable with zero declared
arguments and zero defaults has zero required arguments, which differs
from one, yet the constructor accepts it (the source only rejects more
than one required argument). -/
theorem callCInit_zero_required :
    callCInit true 0 0 = .ok () ∧ ¬ ((0 : Int) - 0 = 1) := by
  constructor
  · rfl
  · decide

/-- C7 (amended): constructing a CallC raises a configuration error if
and only if the argument is not callable or its number of required
(non-defaulted) declared arguments exceeds one; callables with at most
one required argument are accepted. -/
theorem callCInit_iff (c : Bool) (a d : Nat) :
    callCInit c a d = .ok () ↔ (c = true ∧ (a : Int) - (d : Int) ≤ 1) := by
  unfold callCInit
  cases c
  · simp
  · simp

/-! Claim C8: the CallC check and the predicate's return value. -/

/-- Counterexample to C8 as stated: a predicate returning the empty
string returns no non-empty message, yet the check fails (the source
fails on any non-None return). -/
theorem callC_empty_msg :
    check (.callC fun _ => some "") .null = .error "" ∧
      ("" : String).length = 0 := by
  constructor
  · simp
  · rfl

/-- C8 (amended): CallC.check succeeds exactly when the predicate
returns none (no error), and whenever the predicate returns a message,
empty or not, the check fails with exactly that message as the
ValidationError reason. -/
theorem callC_check_char (f : Value → Option String) (v : Value) :
    (check (.callC f) v = .ok () ↔ f v = none) ∧
    (∀ m, f v = some m → check (.callC f) v = .error m) := by
  cases h : f v <;> simp [h]

/-- Witness for callC_check_char at a concrete predicate and value. -/
theorem callC_check_char_witness :
    check (.callC fun _ => some "I want only foo!") (.str "bar") =
      .error "I want only foo!" :=
  (callC_check_char (fun _ => some "I want only foo!") (.str "bar")).2 _ rfl

/-! Claim C6: or-composition produces a flat OrC. -/

theorem foldl_orOp_orC (rs : List Contract) : ∀ acc : List Contract,
    rs.foldl orOp (.orC acc) = .orC (acc ++ rs) := by
  induction rs with
  | nil => simp
  | cons r rs ih =>
    intro acc
    simp only [List.foldl_cons, orOp, ih]
    simp

/-- C6: composing two contracts with the or operator yields a fresh OrC
over exactly the two alternatives; composing an existing OrC with a
further contract appends the contract to its alternatives instead of
nesting; hence left-to-right repeated composition collapses into one
flat OrC listing every alternative in order. -/
theorem orOp_props :
    (∀ c₁ c₂ : Contract, (∀ cs, c₁ ≠ .orC cs) → orOp c₁ c₂ = .orC [c₁, c₂]) ∧
    (∀ (cs : List Contract) (c : Contract),
      orOp (.orC cs) c = .orC (cs ++ [c])) ∧
    (∀ (c₀ : Contract) (rest : List Contract), (∀ cs, c₀ ≠ .orC cs) →
      rest ≠ [] → rest.foldl orOp c₀ = .orC (c₀ :: rest)) := by
  refine ⟨?_, ?_, ?_⟩
  · intro c₁ c₂ h
    cases c₁ <;> first
      | rfl
      | exact absurd rfl (h _)
  · intro cs c
    rfl
  · intro c₀ rest h hne
    cases rest with
    | nil => exact absurd rfl hne
    | cons r rs =>
      have h1 : orOp c₀ r = .orC [c₀, r] := by
        cases c₀ <;> first
          | rfl
          | exact absurd rfl (h _)
      simp only [List.foldl_cons, h1, foldl_orOp_orC]
      simp

/-- Witness for orOp_props at concrete contracts. -/
theorem orOp_props_witness :
    (orOp .nullC .anyC = .orC [.nullC, .anyC]) ∧
    (orOp (.orC [.nullC, .anyC]) (.stringC false) =
      .orC [.nullC, .anyC, .stringC false]) ∧
    ([Contract.anyC, .stringC false].foldl orOp .nullC =
      .orC [.nullC, .anyC, .stringC false]) := by
  refine ⟨orOp_props.1 _ _ ?_, orOp_props.2.1 _ _, orOp_props.2.2 _ _ ?_ ?_⟩
  · intro cs h
    cases h
  · intro cs h
    cases h
  · intro h
    cases h

/-! Claim C9: allow_optionals and the wildcard snapshot. -/

theorem checkPresence_all_opt (cos : List (String × Contract))
    (opt : List String) (items : List (String × Value))
    (h : ∀ p ∈ cos, p.1 ∈ opt) : checkPresence cos opt items = .ok () := by
  induction cos with
  | nil => rfl
  | cons p rest ih =>
    obtain ⟨k, c⟩ := p
    have hk : k ∈ opt := h (k, c) (List.mem_cons_self _ _)
    simp only [checkPresence]
    rw [if_neg]
    · exact ih fun q hq => h q (List.mem_cons_of_mem _ hq)
    · simp [hk]

/-- C9: allow_optionals with the wildcard token sets optionals to the
snapshot of the keys declared at the call, leaving the declared
contracts, extras and allow_any untouched; with ordinary names it
appends each name to optionals; the returned contract is the mutated
contract itself, and after the wildcard call checking the empty mapping
succeeds (every declared key may be absent). -/
theorem allow_optionals_props :
    (∀ (cos : List (String × Contract)) (opt ext : List String) (anyb : Bool),
      allow_optionals (.dictC cos opt ext anyb) ["*"] =
        .dictC cos (cos.map Prod.fst) ext anyb) ∧
    (∀ (cos : List (String × Contract)) (opt ext : List String) (anyb : Bool)
      (names : List String), "*" ∉ names →
      allow_optionals (.dictC cos opt ext anyb) names =
        .dictC cos (opt ++ names) ext anyb) ∧
    (∀ (cos : List (String × Contract)) (opt ext : List String) (anyb : Bool),
      check (allow_optionals (.dictC cos opt ext anyb) ["*"]) (.dict []) =
        .ok ()) := by
  have hstar : ∀ (cos : List (String × Contract)) (opt ext : List String)
      (anyb : Bool),
      allow_optionals (.dictC cos opt ext anyb) ["*"] =
        .dictC cos (cos.map Prod.fst) ext anyb := by
    intro cos opt ext anyb
    simp [allow_optionals]
  refine ⟨hstar, ?_, ?_⟩
  · intro cos opt ext anyb names
    induction names generalizing opt with
    | nil =>
      intro _
      simp [allow_optionals]
    | cons n ns ih =>
      intro h
      have hn : ¬ n = "*" := fun hEq => h (hEq ▸ List.mem_cons_self _ _)
      have hns : "*" ∉ ns := fun hm => h (List.mem_cons_of_mem _ hm)
      have h2 := ih (opt ++ [n]) hns
      simp only [allow_optionals] at h2 ⊢
      simp only [List.foldl_cons, if_neg hn]
      exact h2.trans (by simp)
  · intro cos opt ext anyb
    rw [hstar]
    simp only [check_dictC]
    rw [checkPresence_all_opt _ _ _ (fun p hp => List.mem_map.mpr ⟨p, hp, rfl⟩)]
    simp [checkItems]

/-- Witness for allow_optionals_props at a concrete Dict contract. -/
theorem allow_optionals_props_witness :
    (allow_optionals (.dictC [("foo", .intC none none)] [] [] false) ["*"] =
      .dictC [("foo", .intC none none)] ["foo"] [] false) ∧
    (allow_optionals (.dictC [("foo", .intC none none)] [] [] false) ["bar"] =
      .dictC [("foo", .intC none none)] ["bar"] [] false) ∧
    (check (allow_optionals (.dictC [("foo", .intC none none)] [] [] false)
        ["*"]) (.dict []) = .ok ()) :=
  ⟨allow_optionals_props.1 _ _ _ _,
   allow_optionals_props.2.1 _ _ _ _ _ (by decide),
   allow_optionals_props.2.2 _ _ _ _⟩

end ContractPlus

namespace ContractPlus

/-! Claim C1: short-circuit Or semantics and the generic failure
message. -/

theorem checkOr_all_fail (v : Value) (cs : List Contract)
    (h : ∀ c ∈ cs, check c v ≠ .ok ()) :
    checkOr cs v = .error "no one contract matches" := by
  induction cs with
  | nil => simp [checkOr]
  | cons c rest ih =>
    cases hc : check c v with
    | ok u =>
      exact absurd (by cases u; exact hc) (h c (List.mem_cons_self _ _))
    | error m =>
      simp only [checkOr, hc]
      exact ih fun d hd => h d (List.mem_cons_of_mem _ hd)

theorem checkOr_ok_iff (v : Value) (cs : List Contract) :
    checkOr cs v = .ok () ↔ ∃ c ∈ cs, check c v = .ok () := by
  induction cs with
  | nil => simp [checkOr]
  | cons c rest ih =>
    cases hc : check c v with
    | ok u =>
      cases u
      constructor
      · intro _
        exact ⟨c, List.mem_cons_self _ _, hc⟩
      · intro _
        simp [checkOr, hc]
    | error m =>
      simp only [checkOr, hc, ih]
      constructor
      · rintro ⟨d, hd, hok⟩
        exact ⟨d, List.mem_cons_of_mem _ hd, hok⟩
      · rintro ⟨d, hd, hok⟩
        rcases List.mem_cons.mp hd with rfl | hd'
        · rw [hc] at hok
          cases hok
        · exact ⟨d, hd', hok⟩

theorem checkOr_tail_irrelevant (v : Value) (c : Contract)
    (hc : check c v = .ok ()) (pre post post' : List Contract) :
    checkOr (pre ++ c :: post) v = checkOr (pre ++ c :: post') v := by
  induction pre with
  | nil => simp [checkOr, hc]
  | cons p ps ih =>
    simp only [List.cons_append, checkOr]
    cases check p v with
    | ok u => rfl
    | error m => exact ih

/-- Counterexample to C1 as stated: when every alternative fails the
message of the source is "no one contract matches", not the claimed
"no contract matches". -/
theorem orC_message :
    check (.orC [.nullC]) (.int 0) = .error "no one contract matches" ∧
      "no one contract matches" ≠ "no contract matches" := by
  constructor
  · simp [checkOr]
  · decide

/-- C1 (amended): OrC.check succeeds exactly when some alternative
succeeds; when every alternative fails it fails with the single generic
message "no one contract matches", discarding individual reasons; and
once an alternative succeeds the alternatives after it are irrelevant
to the outcome (short-circuit, no later sub-contract is tried). -/
theorem orC_check_semantics (cs : List Contract) (v : Value) :
    (check (.orC cs) v = .ok () ↔ ∃ c ∈ cs, check c v = .ok ()) ∧
    ((∀ c ∈ cs, check c v ≠ .ok ()) →
      check (.orC cs) v = .error "no one contract matches") ∧
    (∀ (pre post post' : List Contract) (c : Contract), check c v = .ok () →
      check (.orC (pre ++ c :: post)) v =
        check (.orC (pre ++ c :: post')) v) := by
  refine ⟨?_, ?_, ?_⟩
  · simp only [check_orC]
    exact checkOr_ok_iff v cs
  · intro h
    simp only [check_orC]
    exact checkOr_all_fail v cs h
  · intro pre post post' c hc
    simp only [check_orC]
    exact checkOr_tail_irrelevant v c hc pre post post'

/-- Witness for orC_check_semantics at concrete alternatives. -/
theorem orC_check_semantics_witness :
    (check (.orC [.nullC, .intC none none]) (.int 3) = .ok ()) ∧
    (check (.orC [.nullC, .stringC false]) (.int 3) =
      .error "no one contract matches") ∧
    (check (.orC ([.nullC] ++ .intC none none :: [.stringC false])) (.int 3) =
      check (.orC ([.nullC] ++ .intC none none :: [])) (.int 3)) := by
  refine ⟨?_, ?_, ?_⟩
  · exact (orC_check_semantics [.nullC, .intC none none] (.int 3)).1.mpr
      ⟨.intC none none, List.mem_cons_of_mem _ (List.mem_cons_self _ _),
        by simp [intCheck]⟩
  · exact (orC_check_semantics [.nullC, .stringC false] (.int 3)).2.1
      (by
        intro c hc
        rcases List.mem_cons.mp hc with rfl | hc'
        · simp
        · rcases List.mem_cons.mp hc' with rfl | h0
          · simp [stringCheck]
          · cases h0)
  · exact (orC_check_semantics [] (.int 3)).2.2 [.nullC] [.stringC false] []
      (.intC none none) (by simp [intCheck])

/-! Claim C5: order of the List contract's checks. -/

theorem checkList_append_err (c : Contract) (x : Value) (m : String)
    (pre post : List Value) (hpre : ∀ y ∈ pre, check c y = .ok ())
    (hx : check c x = .error m) :
    checkList c (pre ++ x :: post) = .error m := by
  induction pre with
  | nil => simp [checkList, hx]
  | cons y ys ih =>
    have hy : check c y = .ok () := hpre y (List.mem_cons_self _ _)
    simp only [List.cons_append, checkList, hy]
    exact ih fun z hz => hpre z (List.mem_cons_of_mem _ hz)

theorem checkList_all_ok (c : Contract) (xs : List Value)
    (h : ∀ x ∈ xs, check c x = .ok ()) : checkList c xs = .ok () := by
  induction xs with
  | nil => simp [checkList]
  | cons x ys ih =>
    have hx : check c x = .ok () := h x (List.mem_cons_self _ _)
    simp only [checkList, hx]
    exact ih fun z hz => h z (List.mem_cons_of_mem _ hz)

/-- C5: ListC.check performs, in order: the container-type check, the
min_length bound, the max_length bound when set, then element-wise
validation in element order, failing at the first failing element with
that element's own failure message, and succeeding when every check
passes. Each conjunct states one stage winning over all later ones. -/
theorem listC_check_semantics (c : Contract) (mn : Nat) (mx : Option Nat) :
    (∀ v : Value, (∀ xs, v ≠ .list xs) →
      check (.listC c mn mx) v = .error "value is not list") ∧
    (∀ xs : List Value, xs.length < mn →
      check (.listC c mn mx) (.list xs) =
        .error ("list length is less than " ++ toString mn)) ∧
    (∀ (xs : List Value) (hi : Nat), mx = some hi → ¬ xs.length < mn →
      hi < xs.length →
      check (.listC c mn mx) (.list xs) =
        .error ("list length is greater than " ++ toString hi)) ∧
    (∀ (pre post : List Value) (x : Value) (m : String),
      ¬ (pre ++ x :: post).length < mn →
      (∀ hi, mx = some hi → ¬ hi < (pre ++ x :: post).length) →
      (∀ y ∈ pre, check c y = .ok ()) → check c x = .error m →
      check (.listC c mn mx) (.list (pre ++ x :: post)) = .error m) ∧
    (∀ xs : List Value, ¬ xs.length < mn →
      (∀ hi, mx = some hi → ¬ hi < xs.length) →
      (∀ x ∈ xs, check c x = .ok ()) →
      check (.listC c mn mx) (.list xs) = .ok ()) := by
  have hlen : ∀ (xs : List Value), ¬ xs.length < mn →
      (∀ hi, mx = some hi → ¬ hi < xs.length) →
      check (.listC c mn mx) (.list xs) = checkList c xs := by
    intro xs h1 h2
    simp only [check_listC, if_neg h1]
    cases mx with
    | none => rfl
    | some hi => simp [if_neg (h2 hi rfl)]
  refine ⟨?_, ?_, ?_, ?_, ?_⟩
  · intro v h
    cases v with
    | list xs => exact absurd rfl (h xs)
    | null => simp
    | int n => simp
    | float q => simp
    | str s => simp
    | dict d => simp
  · intro xs h
    simp [h]
  · intro xs hi hmx h1 h2
    subst hmx
    simp only [check_listC, if_neg h1, if_pos h2]
  · intro pre post x m h1 h2 hpre hx
    rw [hlen _ h1 h2]
    exact checkList_append_err c x m pre post hpre hx
  · intro xs h1 h2 hall
    rw [hlen _ h1 h2]
    exact checkList_all_ok c xs hall

/-- Witness for listC_check_semantics at concrete lists, one per
conjunct. -/
theorem listC_check_semantics_witness :
    (check (.listC (.intC none none) 1 (some 2)) (.int 5) =
      .error "value is not list") ∧
    (check (.listC (.intC none none) 1 (some 2)) (.list []) =
      .error "list length is less than 1") ∧
    (check (.listC (.intC none none) 1 (some 2))
        (.list [.int 1, .int 2, .int 3]) =
      .error "list length is greater than 2") ∧
    (check (.listC (.intC none none) 1 (some 2))
        (.list ([.int 1] ++ .str "x" :: [])) = .error "value is not int") ∧
    (check (.listC (.intC none none) 1 (some 2)) (.list [.int 1, .int 2]) =
      .ok ()) := by
  have t := listC_check_semantics (.intC none none) 1 (some 2)
  refine ⟨?_, ?_, ?_, ?_, ?_⟩
  · exact t.1 (.int 5) fun xs h => by cases h
  · exact t.2.1 [] (by decide)
  · exact t.2.2.1 [.int 1, .int 2, .int 3] 2 rfl (by decide) (by decide)
  · exact t.2.2.2.1 [.int 1] [] (.str "x") "value is not int" (by decide)
      (by
        intro hi hhi
        cases hhi
        decide)
      (by
        intro y hy
        rcases List.mem_cons.mp hy with rfl | h0
        · simp [intCheck]
        · cases h0)
      (by simp [intCheck])
  · exact t.2.2.2.2 [.int 1, .int 2] (by decide)
      (by
        intro hi hhi
        cases hhi
        decide)
      (by
        intro y hy
        rcases List.mem_cons.mp hy with rfl | h0
        · simp [intCheck]
        · rcases List.mem_cons.mp h0 with rfl | h1
          · simp [intCheck]
          · cases h1)

end ContractPlus

namespace ContractPlus

/-! Claim C2: the two passes of the Dict contract's check. -/

theorem itemCheck_lookup (cos : List (String × Contract)) (ext : List String)
    (anyb : Bool) (k : String) (v : Value) :
    itemCheck cos ext anyb k v =
      (match cos.lookup k with
       | some c => check c v
       | none =>
         if ¬ anyb ∧ k ∉ ext then .error (k ++ " is not allowed key")
         else .ok ()) := by
  induction cos with
  | nil => simp [itemCheck]
  | cons p rest ih =>
    obtain ⟨k', c⟩ := p
    by_cases h : k' = k
    · subst h
      simp [itemCheck, List.lookup]
    · have hne : (k == k') = false :=
        beq_eq_false_iff_ne.mpr fun hh => h hh.symm
      simp only [itemCheck, if_neg h, List.lookup, hne]
      exact ih

theorem itemCheck_ok_iff (cos : List (String × Contract)) (ext : List String)
    (anyb : Bool) (k : String) (v : Value) :
    itemCheck cos ext anyb k v = .ok () ↔ itemPasses cos ext anyb (k, v) := by
  rw [itemCheck_lookup]
  unfold itemPasses
  cases cos.lookup k with
  | some c => simp
  | none =>
    by_cases hb : anyb
    · simp [hb]
    · by_cases he : k ∈ ext <;> simp [hb, he]

theorem checkPresence_eq (cos : List (String × Contract)) (opt : List String)
    (items : List (String × Value)) :
    checkPresence cos opt items =
      (match cos.find?
          (fun q => decide (q.1 ∉ opt ∧ (items.lookup q.1).isNone)) with
       | some p => .error (p.1 ++ " is required")
       | none => .ok ()) := by
  induction cos with
  | nil => simp [checkPresence]
  | cons p rest ih =>
    obtain ⟨k, c⟩ := p
    by_cases h : k ∉ opt ∧ (items.lookup k).isNone
    · simp [checkPresence, if_pos h, List.find?, h]
    · simp only [checkPresence, if_neg h, List.find?]
      rw [show (decide (k ∉ opt ∧ (items.lookup k).isNone)) = false by
        simp only [decide_eq_false_iff_not]; exact h]
      exact ih

theorem checkItems_all_ok (cos : List (String × Contract)) (ext : List String)
    (anyb : Bool) (items : List (String × Value))
    (h : ∀ p ∈ items, itemPasses cos ext anyb p) :
    checkItems cos ext anyb items = .ok () := by
  induction items with
  | nil => simp [checkItems]
  | cons p rest ih =>
    obtain ⟨k, v⟩ := p
    have hk : itemCheck cos ext anyb k v = .ok () :=
      (itemCheck_ok_iff cos ext anyb k v).mpr (h (k, v) (List.mem_cons_self _ _))
    simp only [checkItems, hk]
    exact ih fun q hq => h q (List.mem_cons_of_mem _ hq)

theorem checkItems_append_err (cos : List (String × Contract))
    (ext : List String) (anyb : Bool) (pre post : List (String × Value))
    (k : String) (v : Value) (m : String)
    (hpre : ∀ p ∈ pre, itemPasses cos ext anyb p)
    (hk : itemCheck cos ext anyb k v = .error m) :
    checkItems cos ext anyb (pre ++ (k, v) :: post) = .error m := by
  induction pre with
  | nil => simp [checkItems, hk]
  | cons p rest ih =>
    obtain ⟨k', v'⟩ := p
    have h1 : itemCheck cos ext anyb k' v' = .ok () :=
      (itemCheck_ok_iff cos ext anyb k' v').mpr
        (hpre (k', v') (List.mem_cons_self _ _))
    simp only [List.cons_append, checkItems, h1]
    exact ih fun q hq => hpre q (List.mem_cons_of_mem _ hq)

theorem lookup_isNone_value_irrelevant (q k : String) (v w : Value)
    (pre post : List (String × Value)) :
    ((pre ++ (k, v) :: post).lookup q).isNone =
      ((pre ++ (k, w) :: post).lookup q).isNone := by
  induction pre with
  | nil =>
    simp only [List.nil_append, List.lookup]
    cases q == k <;> rfl
  | cons p rest ih =>
    obtain ⟨a, b⟩ := p
    simp only [List.cons_append, List.lookup]
    cases q == a
    · exact ih
    · rfl

theorem checkPresence_value_irrelevant (cos : List (String × Contract))
    (opt : List String) (k : String) (v w : Value)
    (pre post : List (String × Value)) :
    checkPresence cos opt (pre ++ (k, v) :: post) =
      checkPresence cos opt (pre ++ (k, w) :: post) := by
  induction cos with
  | nil => rfl
  | cons p rest ih =>
    obtain ⟨kk, c⟩ := p
    have hiso := lookup_isNone_value_irrelevant kk k v w pre post
    simp only [checkPresence]
    by_cases hc : kk ∉ opt ∧ (((pre ++ (k, v) :: post).lookup kk).isNone : Bool)
    · rw [if_pos hc, if_pos ⟨hc.1, by rw [← hiso]; exact hc.2⟩]
    · rw [if_neg hc, if_neg fun hh => hc ⟨hh.1, by rw [hiso]; exact hh.2⟩]
      exact ih

theorem checkItems_value_irrelevant (cos : List (String × Contract))
    (ext : List String) (anyb : Bool) (k : String) (v w : Value)
    (pre post : List (String × Value)) (hnone : cos.lookup k = none)
    (hperm : anyb = true ∨ k ∈ ext) :
    checkItems cos ext anyb (pre ++ (k, v) :: post) =
      checkItems cos ext anyb (pre ++ (k, w) :: post) := by
  have hok : ∀ u : Value, itemCheck cos ext anyb k u = .ok () := by
    intro u
    exact (itemCheck_ok_iff cos ext anyb k u).mpr (by
      unfold itemPasses
      simp only [hnone]
      exact hperm)
  induction pre with
  | nil => simp only [List.nil_append, checkItems, hok]
  | cons p rest ih =>
    obtain ⟨a, b⟩ := p
    simp only [List.cons_append, checkItems]
    cases itemCheck cos ext anyb a b
    · rfl
    · exact ih

/-- C2: DictC.check on a mapping runs the presence pass first, failing
with "key is required" at the first declared key (in declaration order)
that is neither optional nor present, even when the item pass would also
fail; only when no required key is missing does the per-item pass run,
in the mapping's enumeration order: a declared key's value is checked
against the declared contract (reporting that contract's failure), an
undeclared key that is neither an extra nor covered by allow_any fails
with "key is not allowed key", and a permitted extra key is accepted
with its value never examined by any contract (the outcome is invariant
under replacing that value). -/
theorem dictC_check_semantics (cos : List (String × Contract))
    (opt ext : List String) (anyb : Bool) (items : List (String × Value)) :
    (∀ p, cos.find?
        (fun q => decide (q.1 ∉ opt ∧ (items.lookup q.1).isNone)) = some p →
      check (.dictC cos opt ext anyb) (.dict items) =
        .error (p.1 ++ " is required")) ∧
    (cos.find?
        (fun q => decide (q.1 ∉ opt ∧ (items.lookup q.1).isNone)) = none →
      ((∀ p ∈ items, itemPasses cos ext anyb p) →
        check (.dictC cos opt ext anyb) (.dict items) = .ok ()) ∧
      (∀ (pre post : List (String × Value)) (k : String) (v : Value)
        (c : Contract) (m : String), items = pre ++ (k, v) :: post →
        (∀ p ∈ pre, itemPasses cos ext anyb p) →
        cos.lookup k = some c → check c v = .error m →
        check (.dictC cos opt ext anyb) (.dict items) = .error m) ∧
      (∀ (pre post : List (String × Value)) (k : String) (v : Value),
        items = pre ++ (k, v) :: post →
        (∀ p ∈ pre, itemPasses cos ext anyb p) →
        cos.lookup k = none → ¬ anyb = true → k ∉ ext →
        check (.dictC cos opt ext anyb) (.dict items) =
          .error (k ++ " is not allowed key"))) ∧
    (∀ (k : String) (v w : Value) (pre post : List (String × Value)),
      cos.lookup k = none → (anyb = true ∨ k ∈ ext) →
      check (.dictC cos opt ext anyb) (.dict (pre ++ (k, v) :: post)) =
        check (.dictC cos opt ext anyb) (.dict (pre ++ (k, w) :: post))) := by
  refine ⟨?_, ?_, ?_⟩
  · intro p hp
    simp only [check_dictC, checkPresence_eq, hp]
  · intro hnone
    have hpres : checkPresence cos opt items = .ok () := by
      rw [checkPresence_eq, hnone]
    refine ⟨?_, ?_, ?_⟩
    · intro hall
      simp only [check_dictC, hpres]
      exact checkItems_all_ok cos ext anyb items hall
    · intro pre post k v c m hsplit hpre hlk hc
      subst hsplit
      simp only [check_dictC, hpres]
      refine checkItems_append_err cos ext anyb pre post k v m hpre ?_
      rw [itemCheck_lookup, hlk]
      exact hc
    · intro pre post k v hsplit hpre hlk hanyb hext
      subst hsplit
      simp only [check_dictC, hpres]
      refine checkItems_append_err cos ext anyb pre post k v _ hpre ?_
      rw [itemCheck_lookup, hlk]
      exact if_pos ⟨hanyb, hext⟩
  · intro k v w pre post hnone hperm
    have h1 := checkPresence_value_irrelevant cos opt k v w pre post
    have h2 := checkItems_value_irrelevant cos ext anyb k v w pre post
      hnone hperm
    simp only [check_dictC, h1]
    cases checkPresence cos opt (pre ++ (k, w) :: post)
    · rfl
    · exact h2

/-- Witness for dictC_check_semantics at a concrete Dict contract with
declared keys foo and bar and extra key eggs, one conclusion per
conjunct of the theorem. -/
theorem dictC_check_semantics_witness :
    (check (.dictC [("foo", .intC none none), ("bar", .stringC false)]
        [] ["eggs"] false) (.dict [("foo", .int 1)]) =
      .error "bar is required") ∧
    (check (.dictC [("foo", .intC none none), ("bar", .stringC false)]
        [] ["eggs"] false)
        (.dict [("foo", .int 1), ("bar", .str "x"), ("eggs", .null)]) =
      .ok ()) ∧
    (check (.dictC [("foo", .intC none none), ("bar", .stringC false)]
        [] ["eggs"] false) (.dict [("foo", .int 1), ("bar", .int 2)]) =
      .error "value is not string") ∧
    (check (.dictC [("foo", .intC none none), ("bar", .stringC false)]
        [] ["eggs"] false)
        (.dict [("foo", .int 1), ("bar", .str "x"), ("ham", .int 100)]) =
      .error "ham is not allowed key") ∧
    (check (.dictC [("foo", .intC none none), ("bar", .stringC false)]
        [] ["eggs"] false)
        (.dict [("foo", .int 1), ("bar", .str "x"), ("eggs", .null)]) =
      check (.dictC [("foo", .intC none none), ("bar", .stringC false)]
        [] ["eggs"] false)
        (.dict [("foo", .int 1), ("bar", .str "x"), ("eggs", .int 7)])) := by
  have hfoo : itemPasses [("foo", .intC none none), ("bar", .stringC false)]
      ["eggs"] false ("foo", .int 1) := by
    unfold itemPasses
    have : List.lookup "foo"
        [("foo", Contract.intC none none), ("bar", .stringC false)] =
        some (.intC none none) := rfl
    rw [this]
    simp [intCheck]
  have hbar : itemPasses [("foo", .intC none none), ("bar", .stringC false)]
      ["eggs"] false ("bar", .str "x") := by
    unfold itemPasses
    have : List.lookup "bar"
        [("foo", Contract.intC none none), ("bar", .stringC false)] =
        some (.stringC false) := rfl
    rw [this]
    simp [stringCheck]
    decide
  have heggs : itemPasses [("foo", .intC none none), ("bar", .stringC false)]
      ["eggs"] false ("eggs", .null) := by
    unfold itemPasses
    have : List.lookup "eggs"
        [("foo", Contract.intC none none), ("bar", .stringC false)] =
        none := rfl
    rw [this]
    right
    decide
  refine ⟨?_, ?_, ?_, ?_, ?_⟩
  · exact (dictC_check_semantics _ _ _ _ _).1 ("bar", .stringC false) rfl
  · refine ((dictC_check_semantics
        [("foo", .intC none none), ("bar", .stringC false)] [] ["eggs"] false
        [("foo", .int 1), ("bar", .str "x"), ("eggs", .null)]).2.1 rfl).1 ?_
    intro p hp
    rcases List.mem_cons.mp hp with rfl | hp'
    · exact hfoo
    · rcases List.mem_cons.mp hp' with rfl | hp''
      · exact hbar
      · rcases List.mem_cons.mp hp'' with rfl | hp'''
        · exact heggs
        · cases hp'''
  · refine ((dictC_check_semantics
        [("foo", .intC none none), ("bar", .stringC false)] [] ["eggs"] false
        [("foo", .int 1), ("bar", .int 2)]).2.1 rfl).2.1
      [("foo", .int 1)] [] "bar" (.int 2) (.stringC false) _ rfl ?_ rfl ?_
    · intro p hp
      rcases List.mem_cons.mp hp with rfl | hp'
      · exact hfoo
      · cases hp'
    · simp [stringCheck]
  · refine ((dictC_check_semantics
        [("foo", .intC none none), ("bar", .stringC false)] [] ["eggs"] false
        [("foo", .int 1), ("bar", .str "x"), ("ham", .int 100)]).2.1 rfl).2.2
      [("foo", .int 1), ("bar", .str "x")] [] "ham" (.int 100) rfl ?_ rfl
      (by decide) (by decide)
    intro p hp
    rcases List.mem_cons.mp hp with rfl | hp'
    · exact hfoo
    · rcases List.mem_cons.mp hp' with rfl | hp''
      · exact hbar
      · cases hp''
  · exact (dictC_check_semantics _ _ _ _
        [("foo", .int 1), ("bar", .str "x"), ("eggs", .null)]).2.2
      "eggs" .null (.int 7) [("foo", .int 1), ("bar", .str "x")] [] rfl
      (Or.inr (by decide))

end ContractPlus

namespace ContractPlus

/-! Claim C3: the guard's pre-check of call arguments. -/

theorem runChecks_append_err (contracts : List (String × Contract))
    (pre post : List (String × Value)) (n : String) (v : Value)
    (c : Contract) (m : String)
    (hpre : ∀ p ∈ pre, ∀ c', contracts.lookup p.1 = some c' →
      check c' p.2 = .ok ())
    (hlk : contracts.lookup n = some c) (hc : check c v = .error m) :
    runChecks contracts (pre ++ (n, v) :: post) = .error m := by
  induction pre with
  | nil => simp [runChecks, hlk, hc]
  | cons p ps ih =>
    obtain ⟨a, u⟩ := p
    simp only [List.cons_append, runChecks]
    cases hl : contracts.lookup a with
    | none => exact ih fun q hq => hpre q (List.mem_cons_of_mem _ hq)
    | some c' =>
      have h1 : check c' u = .ok () :=
        hpre (a, u) (List.mem_cons_self _ _) c' hl
      simp only [h1]
      exact ih fun q hq => hpre q (List.mem_cons_of_mem _ hq)

theorem runChecks_skip_absent (contracts : List (String × Contract))
    (name : String) (c : Contract) (pairs : List (String × Value))
    (h : name ∉ pairs.map Prod.fst) :
    runChecks ((name, c) :: contracts) pairs = runChecks contracts pairs := by
  induction pairs with
  | nil => simp [runChecks]
  | cons p ps ih =>
    obtain ⟨a, u⟩ := p
    have hrest : name ∉ ps.map Prod.fst :=
      fun hm => h (List.mem_cons_of_mem _ hm)
    have ha : (a == name) = false := by
      rw [beq_eq_false_iff_ne]
      intro hEq
      subst hEq
      exact h (by simp)
    simp only [runChecks, List.lookup, ha]
    cases contracts.lookup a with
    | none => exact ih hrest
    | some c' =>
      dsimp only
      cases check c' u with
      | ok _ => exact ih hrest
      | error m => rfl

/-- C3: when the name-value pairs of a call (positional arguments zipped
with the declared parameter names, then keyword arguments) contain a
first contract-checked pair whose contract fails (all earlier pairs
with contracts passing), the guard returns a GuardValidationError
carrying exactly the underlying validation message and the wrapped
function is not invoked (the result is an error, not an application of
the function); a pair whose name has no contract is skipped by the
pre-check; and a contract for a parameter name that does not occur
among the supplied pairs (a default-valued parameter not supplied in
the call) never affects the call's outcome. -/
theorem guard_semantics (α : Type) :
    (∀ (contracts : List (String × Contract)) (argNames : List String)
      (fn : List Value → List (String × Value) → α) (args : List Value)
      (kwargs pre post : List (String × Value)) (n : String) (v : Value)
      (c : Contract) (m : String),
      argNames.zip args ++ kwargs = pre ++ (n, v) :: post →
      (∀ p ∈ pre, ∀ c', contracts.lookup p.1 = some c' →
        check c' p.2 = .ok ()) →
      contracts.lookup n = some c → check c v = .error m →
      guard contracts argNames fn args kwargs = .err m) ∧
    (∀ (contracts : List (String × Contract)) (name : String) (v : Value)
      (rest : List (String × Value)), contracts.lookup name = none →
      runChecks contracts ((name, v) :: rest) = runChecks contracts rest) ∧
    (∀ (contracts : List (String × Contract)) (argNames : List String)
      (fn : List Value → List (String × Value) → α) (args : List Value)
      (kwargs : List (String × Value)) (name : String) (c : Contract),
      name ∉ (argNames.zip args ++ kwargs).map Prod.fst →
      guard ((name, c) :: contracts) argNames fn args kwargs =
        guard contracts argNames fn args kwargs) := by
  refine ⟨?_, ?_, ?_⟩
  · intro contracts argNames fn args kwargs pre post n v c m hsplit hpre hlk hc
    unfold guard
    rw [hsplit, runChecks_append_err contracts pre post n v c m hpre hlk hc]
  · intro contracts name v rest hnone
    simp only [runChecks, hnone]
  · intro contracts argNames fn args kwargs name c h
    unfold guard
    rw [runChecks_skip_absent contracts name c _ h]

/-- Witness for guard_semantics: a guarded two-parameter function with a
String contract on the first parameter rejects an int first argument
with the underlying message; an uncontracted pair is skipped; a
contract on an unsupplied parameter name changes nothing. -/
theorem guard_semantics_witness :
    (guard [("a", .stringC false)] ["a", "b"]
        (fun _ _ => (0 : Nat)) [.int 1, .int 2] [] =
      .err "value is not string") ∧
    (runChecks [("a", .stringC false)] (("b", .int 2) :: [("a", .str "x")]) =
      runChecks [("a", .stringC false)] [("a", .str "x")]) ∧
    (guard [("c", .intC none none), ("a", .stringC false)] ["a", "b"]
        (fun _ _ => (0 : Nat)) [.str "x", .int 2] [] =
      guard [("a", .stringC false)] ["a", "b"]
        (fun _ _ => (0 : Nat)) [.str "x", .int 2] []) := by
  refine ⟨?_, ?_, ?_⟩
  · exact (guard_semantics Nat).1 [("a", .stringC false)] ["a", "b"]
      (fun _ _ => (0 : Nat)) [.int 1, .int 2] [] [] [("b", .int 2)]
      "a" (.int 1) (.stringC false) "value is not string" rfl
      (by intro p hp; cases hp) rfl (by simp [stringCheck])
  · exact (guard_semantics Nat).2.1 [("a", .stringC false)] "b" (.int 2)
      [("a", .str "x")] rfl
  · exact (guard_semantics Nat).2.2 [("a", .stringC false)] ["a", "b"]
      (fun _ _ => (0 : Nat)) [.str "x", .int 2] [] "c" (.intC none none)
      (by decide)

end ContractPlus

namespace ContractPlus

/-! Claim C10: running a check never mutates the contract. -/

theorem checkStFrameAux : ∀ fuel : Nat,
    (∀ c v r, checkSt fuel c v = some r → r.2 = c) ∧
    (∀ cs v r, checkStOr fuel cs v = some r → r.2 = cs) ∧
    (∀ c xs r, checkStList fuel c xs = some r → r.2 = c) ∧
    (∀ cos ext anyb items r,
      checkStItems fuel cos ext anyb items = some r → r.2 = cos) ∧
    (∀ cos ext anyb k v r,
      itemCheckSt fuel cos ext anyb k v = some r → r.2 = cos) := by
  intro fuel
  induction fuel with
  | zero =>
    refine ⟨?_, ?_, ?_, ?_, ?_⟩
    · intro c v r h
      simp [checkSt] at h
    · intro cs v r h
      simp [checkStOr] at h
    · intro c xs r h
      simp [checkStList] at h
    · intro cos ext anyb items r h
      simp [checkStItems] at h
    · intro cos ext anyb k v r h
      simp [itemCheckSt] at h
  | succ n ih =>
    obtain ⟨ih1, ih2, ih3, ih4, ih5⟩ := ih
    refine ⟨?_, ?_, ?_, ?_, ?_⟩
    · intro c v r h
      cases c with
      | anyC => cases h; rfl
      | nullC => cases v <;> (cases h; rfl)
      | intC mn mx => cases h; rfl
      | floatC mn mx => cases h; rfl
      | stringC ab => cases h; rfl
      | enumC vs => cases h; rfl
      | callC f => cases h; rfl
      | orC cs =>
        simp only [checkSt, Option.map_eq_some'] at h
        obtain ⟨r0, h0, hr⟩ := h
        subst hr
        rw [ih2 cs v r0 h0]
      | listC ic mn mx =>
        cases v with
        | list xs =>
          simp only [checkSt] at h
          by_cases h1 : xs.length < mn
          · rw [if_pos h1] at h
            cases h
            rfl
          · rw [if_neg h1] at h
            cases mx with
            | none =>
              simp only [Option.map_eq_some'] at h
              obtain ⟨r0, h0, hr⟩ := h
              subst hr
              rw [ih3 ic xs r0 h0]
            | some hi =>
              dsimp only at h
              by_cases h2 : hi < xs.length
              · rw [if_pos h2] at h
                cases h
                rfl
              · rw [if_neg h2] at h
                simp only [Option.map_eq_some'] at h
                obtain ⟨r0, h0, hr⟩ := h
                subst hr
                rw [ih3 ic xs r0 h0]
        | null => cases h; rfl
        | int k => cases h; rfl
        | float q => cases h; rfl
        | str s => cases h; rfl
        | dict d => cases h; rfl
      | dictC cos opt ext anyb =>
        cases v with
        | dict items =>
          simp only [checkSt] at h
          cases hp : checkPresence cos opt items with
          | error m =>
            rw [hp] at h
            cases h
            rfl
          | ok u =>
            rw [hp] at h
            dsimp only at h
            simp only [Option.map_eq_some'] at h
            obtain ⟨r0, h0, hr⟩ := h
            subst hr
            rw [ih4 cos ext anyb items r0 h0]
        | null => cases h; rfl
        | int k => cases h; rfl
        | float q => cases h; rfl
        | str s => cases h; rfl
        | list xs => cases h; rfl
    · intro cs v r h
      cases cs with
      | nil => cases h; rfl
      | cons c rest =>
        simp only [checkStOr] at h
        cases h0 : checkSt n c v with
        | none =>
          rw [h0] at h
          cases h
        | some r0 =>
          rw [h0] at h
          dsimp only at h
          have hc := ih1 c v r0 h0
          cases hres : r0.1 with
          | ok u =>
            rw [hres] at h
            cases h
            simp [hc]
          | error m =>
            rw [hres] at h
            dsimp only at h
            simp only [Option.map_eq_some'] at h
            obtain ⟨r2, h2, hr⟩ := h
            subst hr
            simp [hc, ih2 rest v r2 h2]
    · intro c xs r h
      cases xs with
      | nil => cases h; rfl
      | cons x rest =>
        simp only [checkStList] at h
        cases h0 : checkSt n c x with
        | none =>
          rw [h0] at h
          cases h
        | some r0 =>
          rw [h0] at h
          dsimp only at h
          have hc := ih1 c x r0 h0
          cases hres : r0.1 with
          | error m =>
            rw [hres] at h
            cases h
            simp [hc]
          | ok u =>
            rw [hres] at h
            dsimp only at h
            rw [ih3 r0.2 rest r h]
            exact hc
    · intro cos ext anyb items r h
      cases items with
      | nil => cases h; rfl
      | cons kv rest =>
        obtain ⟨k, v⟩ := kv
        simp only [checkStItems] at h
        cases h0 : itemCheckSt n cos ext anyb k v with
        | none =>
          rw [h0] at h
          cases h
        | some r0 =>
          rw [h0] at h
          dsimp only at h
          have hc := ih5 cos ext anyb k v r0 h0
          cases hres : r0.1 with
          | error m =>
            rw [hres] at h
            cases h
            simp [hc]
          | ok u =>
            rw [hres] at h
            dsimp only at h
            rw [ih4 r0.2 ext anyb rest r h]
            exact hc
    · intro cos ext anyb k v r h
      cases cos with
      | nil => cases h; rfl
      | cons p rest =>
        obtain ⟨k', c⟩ := p
        simp only [itemCheckSt] at h
        by_cases hk : k' = k
        · rw [if_pos hk] at h
          simp only [Option.map_eq_some'] at h
          obtain ⟨r0, h0, hr⟩ := h
          subst hr
          simp [ih1 c v r0 h0]
        · rw [if_neg hk] at h
          simp only [Option.map_eq_some'] at h
          obtain ⟨r0, h0, hr⟩ := h
          subst hr
          simp [ih5 rest ext anyb k v r0 h0]

/-- C10: the state-passing form of check returns, for every contract of
every kind and every value and any recursion budget that suffices, a
final contract state equal to the input contract: no check mutates the
contract it runs on (the source's check methods never assign to their
contract; only the explicit builder operations produce changed
contracts). -/
theorem checkSt_frame (fuel : Nat) (c : Contract) (v : Value)
    (r : Except String Unit × Contract) (h : checkSt fuel c v = some r) :
    r.2 = c :=
  (checkStFrameAux fuel).1 c v r h

/-- Witness for checkSt_frame: a completed Or check at a concrete value
returns the Or contract unchanged. -/
theorem checkSt_frame_witness :
    checkSt 3 (.orC [.nullC]) (.int 0) =
      some (.error "no one contract matches", .orC [.nullC]) ∧
    ((Except.error "no one contract matches" : Except String Unit),
      Contract.orC [.nullC]).2 = .orC [.nullC] :=
  ⟨rfl, checkSt_frame 3 (.orC [.nullC]) (.int 0) _ rfl⟩

end ContractPlus

namespace ContractPlus

/-- Witness for intC_check_iff: a bounded Int contract accepting a
concrete in-range integer. -/
theorem intC_check_iff_witness :
    check (.intC (some 1) (some 10)) (.int 5) = .ok () :=
  (intC_check_iff (some 1) (some 10) (.int 5)).mpr
    ⟨5, rfl, fun lo hlo => by cases hlo; decide,
      fun hi hhi => by cases hhi; decide⟩

/-- Witness for callCInit_iff: a callable with two declared arguments,
one defaulted, is accepted. -/
theorem callCInit_iff_witness : callCInit true 2 1 = .ok () :=
  (callCInit_iff true 2 1).mpr ⟨rfl, by decide⟩

end ContractPlus
